import Mathlib

/-!
Verification of the metadata-enrichment pipeline of
salesforcecli/plugin-metadata-enrichment.

The TypeScript sources are shallowly embedded:
* static classes become plain functions;
* `T | null` / `T | undefined` become `Option T`;
* JS truthiness of strings is made explicit (`jsTruthy`);
* `Promise` based concurrency is collapsed to pure functions: the
  outcome of each concurrent remote call is supplied by an oracle
  `Nat → Except String _` indexed by the request's position, so that
  completion order is abstracted away while positional collection
  (as done by `Promise.allSettled`) stays observable;
* external collaborators (the metadata registry, the XML
  parser/builder of fast-xml-parser, the file system, and the HTTP
  connection) are parameters of the embedded functions, matching the
  external-collaborator boundary of the code.
-/

namespace MetadataEnrichment

/-- JS nullish coalescing `a ?? b` on optional strings. -/
def jsOr (a b : Option String) : Option String :=
  match a with
  | some s => some s
  | none => b

/-- JS truthiness of an optional string: `undefined`/`null` and the
empty string are falsy, every other string is truthy. -/
def jsTruthy : Option String → Bool
  | some s => s ≠ ""
  | none => false

/-! ## Common data model (`library/common`)

The `common` type declarations are not under `src/`; the record shapes
below are taken from their uses in `enrichmentMetrics.ts`,
`componentProcessor.ts` and `enrichmentHandler.ts`. -/

/-- `ComponentEnrichmentStatus`: `{ type, componentName?, message? }`. -/
structure ComponentEnrichmentStatus where
  type : String
  componentName : Option String
  message : Option String
deriving DecidableEq

/-- `MetadataTypeAndMetadataName`: `{ type, componentName? }`. -/
structure MetadataTypeAndMetadataName where
  type : String
  componentName : Option String
deriving DecidableEq

/-- `MetadataType` of source-deploy-retrieve, as used here: only its
`name` field is consulted by this code. -/
structure MetadataType where
  name : String
deriving DecidableEq

/-- `SourceComponent` of source-deploy-retrieve, restricted to the
fields this repository reads: `fullName`, `name`, `type`, `xml`
(the path of the `.js-meta.xml` support file). -/
structure SourceComponent where
  fullName : Option String
  name : Option String
  type : Option MetadataType
  xml : Option String
deriving DecidableEq

/-- `component.fullName ?? component.name`. -/
def componentNameOf (c : SourceComponent) : Option String :=
  jsOr c.fullName c.name

/-! ## Enrichment handler data types (`enrichmentHandler.ts`) -/

structure ContentBundleFile where
  filename : String
  mimeType : String
  content : String
  encoding : String
deriving DecidableEq

structure ContentBundle where
  resourceName : String
  files : List (String × ContentBundleFile)
deriving DecidableEq

structure EnrichmentRequestBody where
  contentBundles : List ContentBundle
  metadataType : String
  maxTokens : Nat
deriving DecidableEq

structure EnrichmentMetadataInfo where
  durationMs : Nat
  failureCount : Nat
  successCount : Nat
  timestamp : String
deriving DecidableEq

/-- `EnrichmentResult`.  `descriptionScore` is a JS number that the
code only ever turns into a string with `String(...)`; it is embedded
directly as that string rendering. -/
structure EnrichmentResult where
  resourceId : String
  resourceName : String
  metadataType : String
  modelUsed : String
  description : String
  descriptionScore : String
deriving DecidableEq

structure EnrichMetadataResult where
  metadata : EnrichmentMetadataInfo
  results : List EnrichmentResult
deriving DecidableEq

/-- `EnrichmentRequestRecord`: mutable accumulator record; `response`
and `message` are nullable. `componentType` is `component.type ?? null`. -/
structure EnrichmentRequestRecord where
  componentName : String
  componentType : Option MetadataType
  requestBody : EnrichmentRequestBody
  response : Option EnrichMetadataResult
  message : Option String
deriving DecidableEq

/-! ## Metrics (`enrichmentMetrics.ts`) -/

structure MetricsBucket where
  count : Nat
  components : List ComponentEnrichmentStatus
deriving DecidableEq

structure EnrichmentMetrics where
  success : MetricsBucket
  fail : MetricsBucket
  skipped : MetricsBucket
  total : Nat
deriving DecidableEq

/-- The `EnrichmentMetrics` constructor: all buckets empty. -/
def EnrichmentMetrics.empty : EnrichmentMetrics :=
  { success := ⟨0, []⟩, fail := ⟨0, []⟩, skipped := ⟨0, []⟩, total := 0 }

def EnrichmentMetrics.addSuccessComponent (m : EnrichmentMetrics)
    (c : ComponentEnrichmentStatus) : EnrichmentMetrics :=
  { m with
    success := ⟨m.success.count + 1, m.success.components ++ [c]⟩,
    total := m.total + 1 }

def EnrichmentMetrics.addFailComponent (m : EnrichmentMetrics)
    (c : ComponentEnrichmentStatus) : EnrichmentMetrics :=
  { m with
    fail := ⟨m.fail.count + 1, m.fail.components ++ [c]⟩,
    total := m.total + 1 }

def EnrichmentMetrics.addSkippedComponent (m : EnrichmentMetrics)
    (c : ComponentEnrichmentStatus) : EnrichmentMetrics :=
  { m with
    skipped := ⟨m.skipped.count + 1, m.skipped.components ++ [c]⟩,
    total := m.total + 1 }

/-- The `ComponentEnrichmentStatus` built for one record inside
`createEnrichmentMetrics` (loop body, lines 57–71). -/
def statusOfRecord (record : EnrichmentRequestRecord) : ComponentEnrichmentStatus :=
  let metadataType :=
    match record.componentType with
    | some t => t.name
    | none =>
      match record.response with
      | some resp =>
        match resp.results with
        | r :: _ => r.metadataType
        | [] => ""
      | none => ""
  { type := metadataType,
    componentName := some record.componentName,
    message := some (record.message.getD
      (if record.response.isSome then "" else "Enrichment request failed")) }

/-- One iteration of the `for (const record of enrichmentResults)` loop. -/
def classifyRecord (m : EnrichmentMetrics) (record : EnrichmentRequestRecord) :
    EnrichmentMetrics :=
  if record.response.isSome then m.addSuccessComponent (statusOfRecord record)
  else m.addFailComponent (statusOfRecord record)

/-- `EnrichmentMetrics.createEnrichmentMetrics`. -/
def createEnrichmentMetrics (enrichmentResults : List EnrichmentRequestRecord)
    (skippedComponents : List ComponentEnrichmentStatus) : EnrichmentMetrics :=
  let m := enrichmentResults.foldl classifyRecord EnrichmentMetrics.empty
  skippedComponents.foldl (fun m c => m.addSkippedComponent c) m

/-! ### Characterization of `createEnrichmentMetrics` -/

theorem foldl_classifyRecord (records : List EnrichmentRequestRecord) :
    ∀ m : EnrichmentMetrics,
      records.foldl classifyRecord m =
        { success := ⟨m.success.count + (records.filter (fun r => r.response.isSome)).length,
            m.success.components ++ (records.filter (fun r => r.response.isSome)).map statusOfRecord⟩,
          fail := ⟨m.fail.count + (records.filter (fun r => !r.response.isSome)).length,
            m.fail.components ++ (records.filter (fun r => !r.response.isSome)).map statusOfRecord⟩,
          skipped := m.skipped,
          total := m.total + records.length } := by
  induction records with
  | nil => intro m; simp
  | cons r rs ih =>
    intro m
    by_cases h : r.response.isSome = true
    · rw [List.foldl_cons]
      have hc : classifyRecord m r = m.addSuccessComponent (statusOfRecord r) := by
        simp [classifyRecord, h]
      rw [hc, ih]
      have hn : ¬ (r.response = none) := by
        intro hx
        rw [hx] at h
        simp at h
      simp [EnrichmentMetrics.addSuccessComponent, List.filter_cons, h, hn,
        EnrichmentMetrics.mk.injEq, MetricsBucket.mk.injEq, List.append_assoc]
      all_goals omega
    · rw [List.foldl_cons]
      have hc : classifyRecord m r = m.addFailComponent (statusOfRecord r) := by
        simp [classifyRecord, h]
      rw [hc, ih]
      have hn : r.response = none := Option.not_isSome_iff_eq_none.mp (by simpa using h)
      simp [EnrichmentMetrics.addFailComponent, List.filter_cons, h, hn,
        EnrichmentMetrics.mk.injEq, MetricsBucket.mk.injEq, List.append_assoc]
      all_goals omega

theorem foldl_addSkipped (skips : List ComponentEnrichmentStatus) :
    ∀ m : EnrichmentMetrics,
      skips.foldl (fun m c => m.addSkippedComponent c) m =
        { success := m.success,
          fail := m.fail,
          skipped := ⟨m.skipped.count + skips.length, m.skipped.components ++ skips⟩,
          total := m.total + skips.length } := by
  induction skips with
  | nil => intro m; simp
  | cons c cs ih =>
    intro m
    rw [List.foldl_cons, ih]
    simp [EnrichmentMetrics.addSkippedComponent,
      EnrichmentMetrics.mk.injEq, MetricsBucket.mk.injEq, List.append_assoc]
    all_goals omega

/-- Full value of `createEnrichmentMetrics`. -/
theorem createEnrichmentMetrics_eq (records : List EnrichmentRequestRecord)
    (skips : List ComponentEnrichmentStatus) :
    createEnrichmentMetrics records skips =
      { success := ⟨(records.filter (fun r => r.response.isSome)).length,
          (records.filter (fun r => r.response.isSome)).map statusOfRecord⟩,
        fail := ⟨(records.filter (fun r => !r.response.isSome)).length,
          (records.filter (fun r => !r.response.isSome)).map statusOfRecord⟩,
        skipped := ⟨skips.length, skips⟩,
        total := records.length + skips.length } := by
  unfold createEnrichmentMetrics
  rw [foldl_classifyRecord, foldl_addSkipped]
  simp [EnrichmentMetrics.empty]

/-! ### Sample values used by the concrete witnesses below -/

def sampleBody : EnrichmentRequestBody :=
  { contentBundles := [], metadataType := "Generic", maxTokens := 250 }

def sampleResult : EnrichmentResult :=
  { resourceId := "id1", resourceName := "Alpha",
    metadataType := "LightningComponentBundle", modelUsed := "m",
    description := "d", descriptionScore := "0.9" }

def sampleResp : EnrichMetadataResult :=
  { metadata := { durationMs := 12, failureCount := 0, successCount := 1, timestamp := "t" },
    results := [sampleResult] }

def recSuccess : EnrichmentRequestRecord :=
  { componentName := "Alpha", componentType := some { name := "LightningComponentBundle" },
    requestBody := sampleBody, response := some sampleResp, message := none }

def recFailure : EnrichmentRequestRecord :=
  { componentName := "Beta", componentType := some { name := "LightningComponentBundle" },
    requestBody := sampleBody, response := none, message := none }

def recSuccessMsg : EnrichmentRequestRecord :=
  { componentName := "Gamma", componentType := some { name := "LightningComponentBundle" },
    requestBody := sampleBody, response := some sampleResp, message := some "merge failed: boom" }

/-- C1: for every list of enrichment request records and every list of skip
records, the metrics of `createEnrichmentMetrics` satisfy
`total = success.count + fail.count + skipped.count`, and each input record
or skip entry is placed in exactly one of the three buckets: the success
bucket holds exactly the records with a response, the fail bucket exactly
the records without one, the skipped bucket exactly the skip entries. -/
theorem createEnrichmentMetrics_total_partition
    (records : List EnrichmentRequestRecord) (skips : List ComponentEnrichmentStatus) :
    (createEnrichmentMetrics records skips).total
        = (createEnrichmentMetrics records skips).success.count
          + (createEnrichmentMetrics records skips).fail.count
          + (createEnrichmentMetrics records skips).skipped.count
    ∧ (createEnrichmentMetrics records skips).success.count
          + (createEnrichmentMetrics records skips).fail.count = records.length
    ∧ (createEnrichmentMetrics records skips).skipped.count = skips.length
    ∧ (createEnrichmentMetrics records skips).success.components
        = (records.filter (fun r => r.response.isSome)).map statusOfRecord
    ∧ (createEnrichmentMetrics records skips).fail.components
        = (records.filter (fun r => !r.response.isSome)).map statusOfRecord
    ∧ (createEnrichmentMetrics records skips).skipped.components = skips := by
  rw [createEnrichmentMetrics_eq]
  refine ⟨?_, ?_, rfl, rfl, rfl, rfl⟩
  · have h := List.length_eq_length_filter_add
      (l := records) (fun r => r.response.isSome)
    simp only at h ⊢
    omega
  · have h := List.length_eq_length_filter_add
      (l := records) (fun r => r.response.isSome)
    simp only at h ⊢
    omega

/-- C6: a record with a response lands in the success bucket; a record
without a response lands in the fail bucket, and if its `message` was not
set, its fail entry carries the default message
"Enrichment request failed". -/
theorem createEnrichmentMetrics_record_classification
    (records : List EnrichmentRequestRecord) (skips : List ComponentEnrichmentStatus)
    (r : EnrichmentRequestRecord) (hr : r ∈ records) :
    (r.response.isSome = true →
      statusOfRecord r ∈ (createEnrichmentMetrics records skips).success.components)
    ∧ (r.response = none →
      statusOfRecord r ∈ (createEnrichmentMetrics records skips).fail.components
      ∧ (r.message = none →
          (statusOfRecord r).message = some "Enrichment request failed")) := by
  rw [createEnrichmentMetrics_eq]
  constructor
  · intro h
    exact List.mem_map_of_mem _ (List.mem_filter_of_mem hr h)
  · intro h
    refine ⟨List.mem_map_of_mem _ (List.mem_filter_of_mem hr (by simp [h])), ?_⟩
    intro hm
    simp [statusOfRecord, h, hm]

theorem createEnrichmentMetrics_record_classification_witness :
    recFailure ∈ [recSuccess, recFailure]
    ∧ recFailure.response = none
    ∧ recFailure.message = none
    ∧ statusOfRecord recFailure
        ∈ (createEnrichmentMetrics [recSuccess, recFailure] []).fail.components
    ∧ (statusOfRecord recFailure).message = some "Enrichment request failed" := by
  have h := createEnrichmentMetrics_record_classification
    [recSuccess, recFailure] [] recFailure (by simp)
  exact ⟨by simp, rfl, rfl, (h.2 rfl).1, (h.2 rfl).2 rfl⟩

/-- C10: a record whose remote call succeeded (`response` present) but whose
merge step failed (`message` set) is still counted in the success bucket,
never in the fail bucket — classification depends only on response presence —
and the merge error text appears as the success entry's message. -/
theorem response_present_with_message_counts_success
    (records : List EnrichmentRequestRecord) (skips : List ComponentEnrichmentStatus)
    (r : EnrichmentRequestRecord) (resp : EnrichMetadataResult) (msg : String)
    (hr : r ∈ records) (hresp : r.response = some resp) (hmsg : r.message = some msg) :
    statusOfRecord r ∈ (createEnrichmentMetrics records skips).success.components
    ∧ (statusOfRecord r).message = some msg
    ∧ (createEnrichmentMetrics records skips).fail.components
        = (records.filter (fun x => !x.response.isSome)).map statusOfRecord
    ∧ r ∉ records.filter (fun x => !x.response.isSome) := by
  rw [createEnrichmentMetrics_eq]
  refine ⟨List.mem_map_of_mem _ (List.mem_filter_of_mem hr (by simp [hresp])), ?_, rfl, ?_⟩
  · simp [statusOfRecord, hmsg]
  · intro hx
    have := List.of_mem_filter hx
    simp [hresp] at this

theorem response_present_with_message_counts_success_witness :
    recSuccessMsg ∈ [recSuccessMsg, recFailure]
    ∧ recSuccessMsg.response = some sampleResp
    ∧ recSuccessMsg.message = some "merge failed: boom"
    ∧ statusOfRecord recSuccessMsg
        ∈ (createEnrichmentMetrics [recSuccessMsg, recFailure] []).success.components
    ∧ (statusOfRecord recSuccessMsg).message = some "merge failed: boom"
    ∧ recSuccessMsg ∉ [recSuccessMsg, recFailure].filter (fun x => !x.response.isSome) := by
  have h := response_present_with_message_counts_success
    [recSuccessMsg, recFailure] [] recSuccessMsg sampleResp "merge failed: boom"
    (by simp) rfl rfl
  exact ⟨by simp, rfl, rfl, h.1, h.2.1, h.2.2.2⟩

/-! ## Dispatcher (`enrichmentHandler.ts`, `EnrichmentHandler`)

The remote call `connection.requestPost(ENDPOINT_ENRICHMENT, body)` is
modelled by an oracle `outcome : Nat → Except String EnrichMetadataResult`
giving, for the request at position `i`, either the parsed response or the
message of the raised error (`error instanceof Error ? error.message :
String(error)`).  Indexing by position abstracts completion order away:
`Promise.allSettled` collects each promise's settlement at the index it was
created at, whatever order the settlements happen in. -/

/-- `EnrichmentHandler.sendEnrichmentRequest`: on success, the record with
`response` populated; on failure, an error whose message wraps the
underlying message and names the component (the thrown `SfError`). -/
def sendEnrichmentRequest (outcome : Except String EnrichMetadataResult)
    (record : EnrichmentRequestRecord) : Except String EnrichmentRequestRecord :=
  match outcome with
  | .ok response => .ok { record with response := some response }
  | .error e =>
    .error ("Error sending request for component " ++ record.componentName ++ ": " ++ e)

/-- Settlement collection for one slot of `Promise.allSettled`: a fulfilled
promise contributes its value, a rejected one contributes
`{...records[index], response: null, message: errorMessage}`. -/
def settleRecord (outcome : Except String EnrichMetadataResult)
    (record : EnrichmentRequestRecord) : EnrichmentRequestRecord :=
  match sendEnrichmentRequest outcome record with
  | .ok r => r
  | .error msg => { record with response := none, message := some msg }

/-- `records.map(...)` with the promise index, then `Promise.allSettled`
collection; `k` is the position of the current head in the original list. -/
def sendEnrichmentRequestsFrom (outcome : Nat → Except String EnrichMetadataResult) :
    Nat → List EnrichmentRequestRecord → List EnrichmentRequestRecord
  | _, [] => []
  | k, r :: rs => settleRecord (outcome k) r :: sendEnrichmentRequestsFrom outcome (k + 1) rs

/-- `EnrichmentHandler.sendEnrichmentRequests`. -/
def sendEnrichmentRequests (outcome : Nat → Except String EnrichMetadataResult)
    (records : List EnrichmentRequestRecord) : List EnrichmentRequestRecord :=
  sendEnrichmentRequestsFrom outcome 0 records

theorem sendEnrichmentRequestsFrom_getElem
    (outcome : Nat → Except String EnrichMetadataResult)
    (records : List EnrichmentRequestRecord) :
    ∀ k i, (sendEnrichmentRequestsFrom outcome k records)[i]? =
      records[i]?.map (settleRecord (outcome (k + i))) := by
  induction records with
  | nil => intro k i; simp [sendEnrichmentRequestsFrom]
  | cons r rs ih =>
    intro k i
    cases i with
    | zero => simp [sendEnrichmentRequestsFrom]
    | succ j =>
      simp only [sendEnrichmentRequestsFrom, List.getElem?_cons_succ, ih (k + 1) j]
      have : k + 1 + j = k + (j + 1) := by omega
      rw [this]

theorem sendEnrichmentRequestsFrom_length
    (outcome : Nat → Except String EnrichMetadataResult)
    (records : List EnrichmentRequestRecord) :
    ∀ k, (sendEnrichmentRequestsFrom outcome k records).length = records.length := by
  induction records with
  | nil => intro k; rfl
  | cons r rs ih => intro k; simp [sendEnrichmentRequestsFrom, ih]

/-- C2: dispatch returns a list of the same length; the entry at index `i`
is exactly the settlement of the input record at index `i` under its own
outcome, regardless of any other request's outcome; and for any two outcome
assignments that agree at `i` (in particular, one where every other request
fails), the entry at `i` is the same — each record's result is what it
would have been in isolation. -/
theorem sendEnrichmentRequests_pointwise
    (outcome : Nat → Except String EnrichMetadataResult)
    (records : List EnrichmentRequestRecord) :
    (sendEnrichmentRequests outcome records).length = records.length
    ∧ (∀ i, (sendEnrichmentRequests outcome records)[i]? =
        records[i]?.map (settleRecord (outcome i)))
    ∧ (∀ outcome' : Nat → Except String EnrichMetadataResult, ∀ i,
        outcome' i = outcome i →
        (sendEnrichmentRequests outcome' records)[i]? =
          (sendEnrichmentRequests outcome records)[i]?) := by
  refine ⟨sendEnrichmentRequestsFrom_length outcome records 0, ?_, ?_⟩
  · intro i
    have h := sendEnrichmentRequestsFrom_getElem outcome records 0 i
    simpa [sendEnrichmentRequests] using h
  · intro outcome' i hagree
    have h1 := sendEnrichmentRequestsFrom_getElem outcome' records 0 i
    have h2 := sendEnrichmentRequestsFrom_getElem outcome records 0 i
    simp only [sendEnrichmentRequests]
    rw [h1, h2]
    simp [hagree]

theorem sendEnrichmentRequests_pointwise_witness :
    (fun _ : Nat => (Except.error "net down" : Except String EnrichMetadataResult)) 0
      = (fun _ : Nat => (Except.error "net down" : Except String EnrichMetadataResult)) 0
    ∧ (sendEnrichmentRequests (fun _ => .error "net down") [recSuccess, recFailure])[0]? =
        (sendEnrichmentRequests (fun _ => .error "net down") [recSuccess, recFailure])[0]? := by
  have h := sendEnrichmentRequests_pointwise
    (fun _ => .error "net down") [recSuccess, recFailure]
  exact ⟨rfl, h.2.2 (fun _ => .error "net down") 0 rfl⟩

/-- C7: for each dispatched record, a successful remote call yields the
record with `response` populated with the parsed result and `message`
still unset (records enter dispatch with `message = none`); a failed call
yields `response` absent and `message` set to an error string that
contains the component's name. -/
theorem sendEnrichmentRequests_outcome_shape
    (outcome : Nat → Except String EnrichMetadataResult)
    (records : List EnrichmentRequestRecord) (i : Nat) (r : EnrichmentRequestRecord)
    (hi : records[i]? = some r) (hm : r.message = none) :
    (∀ resp, outcome i = .ok resp →
      (sendEnrichmentRequests outcome records)[i]? = some { r with response := some resp }
      ∧ ({ r with response := some resp } : EnrichmentRequestRecord).message = none)
    ∧ (∀ e, outcome i = .error e →
      ∃ r', (sendEnrichmentRequests outcome records)[i]? = some r'
        ∧ r'.response = none
        ∧ r'.message =
            some ("Error sending request for component " ++ r.componentName ++ ": " ++ e)
        ∧ ∃ pre post,
            ("Error sending request for component " ++ r.componentName ++ ": " ++ e)
              = pre ++ r.componentName ++ post) := by
  have hget := (sendEnrichmentRequests_pointwise outcome records).2.1 i
  rw [hi] at hget
  constructor
  · intro resp hok
    rw [hget]
    simp only [Option.map_some]
    constructor
    · simp [settleRecord, sendEnrichmentRequest, hok]
    · simpa using hm
  · intro e herr
    refine ⟨settleRecord (outcome i) r, by rw [hget]; simp, ?_, ?_, ?_⟩
    · simp [settleRecord, sendEnrichmentRequest, herr]
    · simp [settleRecord, sendEnrichmentRequest, herr]
    · exact ⟨"Error sending request for component ", ": " ++ e, by simp [String.append_assoc]⟩

theorem sendEnrichmentRequests_outcome_shape_witness :
    ([recFailure])[0]? = some recFailure
    ∧ recFailure.message = none
    ∧ (∃ r', (sendEnrichmentRequests (fun _ => .error "boom") [recFailure])[0]? = some r'
        ∧ r'.response = none
        ∧ r'.message =
            some ("Error sending request for component " ++ recFailure.componentName
              ++ ": " ++ "boom")
        ∧ ∃ pre post,
            ("Error sending request for component " ++ recFailure.componentName
              ++ ": " ++ "boom") = pre ++ recFailure.componentName ++ post) := by
  have h := sendEnrichmentRequests_outcome_shape
    (fun _ => .error "boom") [recFailure] 0 recFailure rfl rfl
  exact ⟨rfl, rfl, h.2 "boom" rfl⟩

/-! ## JS string primitives

Embeddings of the JS string operations the classifier uses, written over
the character list of the string so that concrete witnesses evaluate. -/

/-- JS `s.split(sep)` for a one-character separator. -/
def splitChar (sep : Char) (s : String) : List String :=
  (s.toList.foldr
    (fun c acc =>
      match acc with
      | cur :: rest => if c = sep then [] :: (cur :: rest) else (c :: cur) :: rest
      | [] => [[c]])
    [[]]).map (fun cs => String.mk cs)

def isJsWhitespace (c : Char) : Bool :=
  c = ' ' || c = '\t' || c = '\n' || c = '\r'

/-- JS `s.trim()`. -/
def jsTrim (s : String) : String :=
  String.mk (((s.toList.dropWhile isJsWhitespace).reverse.dropWhile isJsWhitespace).reverse)

/-- JS `s.includes(c)` for a one-character needle. -/
def jsIncludesChar (s : String) (c : Char) : Bool :=
  s.toList.contains c

/-! ## Request classifier (`utils/componentProcessor.ts`)

`RegistryAccess.getTypeByName` is an external collaborator: it is
modelled as `registry : String → Option String`, mapping a kind token to
the canonical `type.name`, with `none` for the throw that
`parseMetadataEntry` catches (returning `null`). -/

/-- `ComponentProcessor.parseMetadataEntry`: split on the first colon
(rejoining the rest), resolve the kind, `'*'` or a missing name part means
a wildcard (`componentName` undefined). -/
def parseMetadataEntry (registry : String → Option String) (rawEntry : String) :
    Option MetadataTypeAndMetadataName :=
  let parts := splitChar ':' rawEntry
  match registry (jsTrim (parts.headD "")) with
  | none => none
  | some typeName =>
    let nameParts := parts.tail
    let metadataName :=
      if nameParts.length > 0 then jsTrim (String.intercalate ":" nameParts) else "*"
    some { type := typeName,
           componentName := if metadataName = "*" then none else some metadataName }

/-- `ComponentProcessor.parseRequestedComponents`.  The TS declares a
`Set<MetadataTypeAndMetadataName>` and adds each parsed entry; a JS `Set`
compares object elements by reference and `parseMetadataEntry` allocates a
fresh object on every call, so every insertion is kept and iteration is in
insertion order — the set behaves as this list. -/
def parseRequestedComponents (registry : String → Option String)
    (metadataEntries : List String) : List MetadataTypeAndMetadataName :=
  (metadataEntries.filterMap (parseMetadataEntry registry)).filter
    (fun parsed =>
      !(jsTruthy parsed.componentName && jsIncludesChar (parsed.componentName.getD "") '*'))

/-- `ComponentProcessor.getExistingSourceComponentNames`.  The TS builds a
`Set<string>` only queried through `has`; a list with `contains` has the
same membership semantics. -/
def getExistingSourceComponentNames (comps : List SourceComponent) : List String :=
  comps.filterMap (fun c =>
    match componentNameOf c with
    | some n => if n ≠ "" then some n else none
    | none => none)

/-- `ComponentProcessor.diffRequestedComponents` (lines 32–48): one
`Not found in source project` skip per requested entry with a truthy name
absent from the source names. -/
def diffRequestedComponents (comps : List SourceComponent)
    (requested : List MetadataTypeAndMetadataName) : List ComponentEnrichmentStatus :=
  requested.filterMap (fun rc =>
    if jsTruthy rc.componentName
        && !((getExistingSourceComponentNames comps).contains (rc.componentName.getD "")) then
      some { type := rc.type, componentName := rc.componentName,
             message := some "Not found in source project" }
    else none)

/-- `ComponentProcessor.createSourceComponentMap` followed by `get`:
a JS `Map` keeps the last `set` for a key, so lookup is last-wins over the
components with a truthy name. -/
def sourceComponentMapGet (comps : List SourceComponent) (n : String) :
    Option SourceComponent :=
  comps.foldl
    (fun acc c =>
      match componentNameOf c with
      | some cn => if cn ≠ "" ∧ cn = n then some c else acc
      | none => acc)
    none

/-- The `Only Lightning Web Components ...` skip record pushed by
`filterComponents` (spread of the requested entry plus the message). -/
def unsupportedKindSkip (rc : MetadataTypeAndMetadataName) : ComponentEnrichmentStatus :=
  { type := rc.type, componentName := rc.componentName,
    message := some "Only Lightning Web Components are currently supported for enrichment" }

/-- The missing-configuration-file skip record pushed by `filterComponents`. -/
def missingXmlSkip (rc : MetadataTypeAndMetadataName) : ComponentEnrichmentStatus :=
  { type := rc.type, componentName := rc.componentName,
    message := some "Lightning Web Component configuration file does not exist (*.js-meta.xml)" }

/-- Loop body of `ComponentProcessor.filterComponents` for one requested
entry: skip records for a matched non-LWC component and for a matched LWC
component without its `.js-meta.xml` support file. -/
def filterComponentsOne (comps : List SourceComponent)
    (rc : MetadataTypeAndMetadataName) : List ComponentEnrichmentStatus :=
  let sourceComponent :=
    if jsTruthy rc.componentName then sourceComponentMapGet comps (rc.componentName.getD "")
    else none
  match sourceComponent with
  | none => []
  | some sc =>
    (if (sc.type.map MetadataType.name) ≠ some "LightningComponentBundle" then
      [unsupportedKindSkip rc]
    else [])
    ++
    (if (sc.type.map MetadataType.name) = some "LightningComponentBundle"
        ∧ jsTruthy sc.xml = false then
      [missingXmlSkip rc]
    else [])

def filterComponents (comps : List SourceComponent)
    (requested : List MetadataTypeAndMetadataName) : List ComponentEnrichmentStatus :=
  requested.flatMap (filterComponentsOne comps)

/-- `ComponentProcessor.getComponentsToSkip`: missing components first,
then filtered components. -/
def getComponentsToSkip (registry : String → Option String)
    (sourceComponents : List SourceComponent) (metadataEntries : List String) :
    List ComponentEnrichmentStatus :=
  let requestedComponents := parseRequestedComponents registry metadataEntries
  diffRequestedComponents sourceComponents requestedComponents
    ++ filterComponents sourceComponents requestedComponents

/-- A registry knowing exactly the one supported kind. -/
def regLWC : String → Option String := fun t =>
  if t = "LightningComponentBundle" then some "LightningComponentBundle" else none

/-- C4 (code evaluation at the failing input): the same identifier string
supplied twice yields TWO identical skip records, not one — the
`Set<MetadataTypeAndMetadataName>` in `parseRequestedComponents` holds
fresh object references, so it never deduplicates by `(kind, name)`. -/
theorem duplicate_identifier_yields_two_skips :
    getComponentsToSkip regLWC []
      ["LightningComponentBundle:Ghost", "LightningComponentBundle:Ghost"]
    = [{ type := "LightningComponentBundle", componentName := some "Ghost",
         message := some "Not found in source project" },
       { type := "LightningComponentBundle", componentName := some "Ghost",
         message := some "Not found in source project" }] := by
  decide

/-- C5 (counterexample): an identifier whose name is exactly `all` is not
discarded by the classifier — `LightningComponentBundle:all` against an
empty project produces a `Not found in source project` skip record, where
the claim says it must produce none. -/
theorem identifier_named_all_yields_skip :
    getComponentsToSkip regLWC [] ["LightningComponentBundle:all"]
    = [{ type := "LightningComponentBundle", componentName := some "all",
         message := some "Not found in source project" }] := by
  decide

/-- C5 (amended): identifiers whose parsed name contains the wildcard
marker `*` never survive parsing, and every skip record produced by the
classifier carries a non-empty, wildcard-free component name — so wildcard
identifiers (`Kind:*`, bare `Kind`, `*`-containing names) never produce a
skip record; a name exactly `all` is not special and is classified like
any other name. -/
theorem skip_records_have_wildcard_free_names
    (registry : String → Option String) (comps : List SourceComponent)
    (entries : List String) :
    (∀ p ∈ parseRequestedComponents registry entries,
      (jsTruthy p.componentName && jsIncludesChar (p.componentName.getD "") '*') = false)
    ∧ (∀ st ∈ getComponentsToSkip registry comps entries,
      ∃ s, st.componentName = some s ∧ s ≠ "" ∧ jsIncludesChar s '*' = false) := by
  have hparse : ∀ p ∈ parseRequestedComponents registry entries,
      (jsTruthy p.componentName && jsIncludesChar (p.componentName.getD "") '*') = false := by
    intro p hp
    have h := List.of_mem_filter hp
    cases hb : (jsTruthy p.componentName && jsIncludesChar (p.componentName.getD "") '*') with
    | false => rfl
    | true => rw [hb] at h; simp at h
  refine ⟨hparse, ?_⟩
  have hname : ∀ rc ∈ parseRequestedComponents registry entries,
      jsTruthy rc.componentName = true →
      ∃ s, rc.componentName = some s ∧ s ≠ "" ∧ jsIncludesChar s '*' = false := by
    intro rc hrc htr
    rcases hx : rc.componentName with _ | s
    · rw [hx] at htr
      exact absurd htr (by simp [jsTruthy])
    · refine ⟨s, rfl, ?_, ?_⟩
      · have hts : jsTruthy (some s) = true := hx ▸ htr
        simpa [jsTruthy] using hts
      · have h := hparse rc hrc
        rw [htr, Bool.true_and, hx] at h
        simpa using h
  intro st hst
  rcases List.mem_append.mp hst with hd | hf
  · rcases List.mem_filterMap.mp hd with ⟨rc, hrc, heq⟩
    by_cases hcond : (jsTruthy rc.componentName
        && !((getExistingSourceComponentNames comps).contains (rc.componentName.getD ""))) = true
    · rw [if_pos hcond] at heq
      obtain ⟨h1, _⟩ := Bool.and_eq_true_iff.mp hcond
      obtain ⟨s, hs, hne, hnw⟩ := hname rc hrc h1
      have hval := Option.some.inj heq
      refine ⟨s, ?_, hne, hnw⟩
      rw [← hval, ← hs]
    · rw [if_neg hcond] at heq; cases heq
  · rcases List.mem_flatMap.mp hf with ⟨rc, hrc, hone⟩
    unfold filterComponentsOne at hone
    cases htr : jsTruthy rc.componentName with
    | false =>
      rw [htr] at hone
      simp at hone
    | true =>
      rcases hm : sourceComponentMapGet comps (rc.componentName.getD "") with _ | sc
      · rw [htr] at hone
        simp [hm] at hone
      · obtain ⟨s, hs, hne, hnw⟩ := hname rc hrc htr
        have hone2 : st ∈
            (if (sc.type.map MetadataType.name) ≠ some "LightningComponentBundle" then
              [unsupportedKindSkip rc]
            else [])
            ++
            (if (sc.type.map MetadataType.name) = some "LightningComponentBundle"
                ∧ jsTruthy sc.xml = false then
              [missingXmlSkip rc]
            else []) := by
          rw [htr] at hone
          simpa [hm] using hone
        rcases List.mem_append.mp hone2 with h1 | h2
        · split at h1
          · rcases List.mem_singleton.mp h1 with rfl
            exact ⟨s, by simpa [unsupportedKindSkip] using hs, hne, hnw⟩
          · simp at h1
        · split at h2
          · rcases List.mem_singleton.mp h2 with rfl
            exact ⟨s, by simpa [missingXmlSkip] using hs, hne, hnw⟩
          · simp at h2

def ghostSkip : ComponentEnrichmentStatus :=
  { type := "LightningComponentBundle", componentName := some "Ghost",
    message := some "Not found in source project" }

theorem skip_records_have_wildcard_free_names_witness :
    ghostSkip ∈ getComponentsToSkip regLWC [] ["LightningComponentBundle:Ghost"]
    ∧ ∃ s, ghostSkip.componentName = some s ∧ s ≠ "" ∧ jsIncludesChar s '*' = false := by
  refine ⟨by decide, ?_⟩
  exact (skip_records_have_wildcard_free_names regLWC []
    ["LightningComponentBundle:Ghost"]).2 ghostSkip (by decide)

/-! ## File processor (`fileProcessor.ts`)

The file system is a map `Fs` from path to readable content (`none` both
for a missing and for an unreadable file: `readFile` throwing is what the
code observes).  The fast-xml-parser `XMLParser`/`XMLBuilder` pair and
`writeFile` are external collaborators gathered in `MergeEnv`:
`parse` returns the typed view the code casts the parse to (or the thrown
error's message), `build` serializes a document, `writeOk`/`writeErrMsg`
say whether `writeFile` succeeds on a path and with which error message it
fails. -/

abbrev Fs := String → Option String

/-- JS `basename(p)` (posix): the part after the last `/`. -/
def basename (p : String) : String :=
  (splitChar '/' p).getLastD ""

/-- JS `s.endsWith(suffix)`. -/
def jsEndsWith (s suffix : String) : Bool :=
  suffix.toList.isSuffixOf s.toList

/-- `FileProcessor.isMetaXmlFile`. -/
def isMetaXmlFile (filePath : String) : Bool :=
  jsEndsWith (basename filePath) ".js-meta.xml"

/-- Node `extname(p)`: the extension of the basename including the dot,
empty when there is no dot or the only dot starts a dotfile. -/
def extname (p : String) : String :=
  let parts := splitChar '.' (basename p)
  match parts with
  | [] => ""
  | [_] => ""
  | first :: more =>
    if first = "" ∧ more.length = 1 then "" else "." ++ more.getLastD ""

/-- JS `s.toLowerCase()`. -/
def jsToLower (s : String) : String :=
  String.mk (s.toList.map Char.toLower)

/-- The enrichment endpoint path of `constants.ts`. -/
def ENDPOINT_ENRICHMENT : String :=
  "/services/data/v66.0/metadata-intelligence/enrichments/on-demand"

/-- The static extension→MIME table `MIME_TYPES` of `constants.ts`,
entry for entry. -/
def MIME_TYPES : List (String × String) :=
  [(".js", "application/javascript"), (".html", "text/html"), (".css", "text/css"),
   (".xml", "application/xml"), (".svg", "image/svg+xml")]

/-- `getMimeTypeFromExtension` (`enrichmentHandler.ts` lines 72–75). -/
def getMimeTypeFromExtension (filePath : String) : String :=
  (MIME_TYPES.lookup (jsToLower (extname filePath))).getD "application/octet-stream"

structure FileReadResult where
  componentName : String
  filePath : String
  fileContents : String
  mimeType : String
deriving DecidableEq

/-- `FileProcessor.readFileMetadata`: a failed read is caught and
becomes `null`. -/
def readFileMetadata (fs : Fs) (componentName filePath : String) :
    Option FileReadResult :=
  (fs filePath).map (fun fileContents =>
    { componentName := componentName, filePath := filePath,
      fileContents := fileContents,
      mimeType := getMimeTypeFromExtension filePath })

/-- `FileProcessor.readComponentXmlFilesInParallel`: one read per component
with a truthy name and a truthy `xml` path; null results filtered out. -/
def readComponentXmlFilesInParallel (fs : Fs)
    (sourceComponents : List SourceComponent) : List FileReadResult :=
  sourceComponents.filterMap (fun component =>
    if jsTruthy (componentNameOf component) && jsTruthy component.xml then
      readFileMetadata fs ((componentNameOf component).getD "") (component.xml.getD "")
    else none)

/-- Value of the `skipUplift` field in the parsed XML object:
`string | boolean` in the TS cast. -/
inductive SkipVal where
  | str (s : String)
  | bool (b : Bool)
deriving DecidableEq

/-- The `ai` sub-element of the parsed support file. -/
structure AiElement where
  skipUplift : Option SkipVal
  description : Option String
  score : Option String
deriving DecidableEq

/-- The `LightningComponentBundle` root element: its `ai` sub-element plus
the sibling content the code never touches. -/
structure BundleElement where
  ai : Option AiElement
  rest : List (String × String)
deriving DecidableEq

/-- The parsed support-file document. -/
structure XmlDoc where
  bundle : Option BundleElement
  rest : List (String × String)
deriving DecidableEq

/-- JS `String(v)` on the optional `skipUplift` value. -/
def jsStringOfSkip : Option SkipVal → String
  | none => "undefined"
  | some (.bool true) => "true"
  | some (.bool false) => "false"
  | some (.str s) => s

/-- The opt-out test of `updateMetaXml`:
`skipUpliftValue === true || String(skipUpliftValue).toLowerCase() === 'true'`. -/
def isSkipUpliftTrue (v : Option SkipVal) : Bool :=
  v == some (.bool true) || jsToLower (jsStringOfSkip v) == "true"

structure MergeEnv where
  parse : String → Except String XmlDoc
  build : XmlDoc → String
  writeOk : String → Bool
  writeErrMsg : String → String

/-- `builtXml.trim().replace(/\n{3,}/g, 'nn')` (two newlines): every run
of three or more newlines is shortened to exactly two.  `count` is the
number of newlines immediately preceding the current position. -/
def collapseNewlinesAux : Nat → List Char → List Char
  | _, [] => []
  | count, c :: cs =>
    if c = '\n' then
      if count ≥ 2 then collapseNewlinesAux (count + 1) cs
      else c :: collapseNewlinesAux (count + 1) cs
    else c :: collapseNewlinesAux 0 cs

def collapseNewlines (s : String) : String :=
  String.mk (collapseNewlinesAux 0 s.toList)

/-- `FileProcessor.updateMetaXml` (lines 118–163): parse, honor the
opt-out flag by returning the input unchanged, otherwise set the three
`ai` fields and rebuild; a parse failure becomes a thrown `SfError`. -/
def updateMetaXml (env : MergeEnv) (xmlContent : String)
    (result : EnrichmentResult) : Except String String :=
  match env.parse xmlContent with
  | .error e => .error ("Failed to parse XML: " ++ e)
  | .ok xmlObj =>
    let ai := xmlObj.bundle.bind BundleElement.ai
    let skipUpliftValue := ai.bind AiElement.skipUplift
    if isSkipUpliftTrue skipUpliftValue then .ok xmlContent
    else
      let bundle := xmlObj.bundle.getD { ai := none, rest := [] }
      let newAi : AiElement :=
        { skipUplift := some (.str "false"),
          description := some result.description,
          score := some result.descriptionScore }
      let newObj : XmlDoc := { xmlObj with bundle := some { bundle with ai := some newAi } }
      .ok (collapseNewlines (jsTrim (env.build newObj)))

/-- One write into the file-system map. -/
def fsWrite (fs : Fs) (p v : String) : Fs :=
  fun q => if q = p then some v else fs q

/-- `enrichmentRecord.message = errorMessage` through the alias returned by
`Array.prototype.find`: the first record with the given component name gets
its message replaced. -/
def setMessageOnFirst (records : List EnrichmentRequestRecord)
    (name msg : String) : List EnrichmentRequestRecord :=
  match records with
  | [] => []
  | r :: rs =>
    if r.componentName = name then { r with message := some msg } :: rs
    else r :: setMessageOnFirst rs name msg

/-- Body of the `for (const file of fileContents)` loop of
`updateMetadataFiles`: state is the records array plus the file system. -/
def processFile (env : MergeEnv) (st : List EnrichmentRequestRecord × Fs)
    (file : FileReadResult) : List EnrichmentRequestRecord × Fs :=
  if !(isMetaXmlFile file.filePath) then st
  else
    match st.1.find? (fun r => r.componentName == file.componentName) with
    | none => st
    | some record =>
      match record.response with
      | none => st
      | some response =>
        match response.results with
        | [] => st
        | result :: _ =>
          match updateMetaXml env file.fileContents result with
          | .error e => (setMessageOnFirst st.1 file.componentName e, st.2)
          | .ok updatedXml =>
            if env.writeOk file.filePath then
              (st.1, fsWrite st.2 file.filePath updatedXml)
            else
              (setMessageOnFirst st.1 file.componentName
                (env.writeErrMsg file.filePath), st.2)

/-- `FileProcessor.updateMetadataFiles`: read every component's support
file up front, then process each read file in order. -/
def updateMetadataFiles (env : MergeEnv) (sourceComponents : List SourceComponent)
    (enrichmentRecords : List EnrichmentRequestRecord) (fs : Fs) :
    List EnrichmentRequestRecord × Fs :=
  (readComponentXmlFilesInParallel fs sourceComponents).foldl
    (processFile env) (enrichmentRecords, fs)

/-! ### Merge-step lemmas -/

/-- Every file entering the merge loop was read from the initial file
system: its `fileContents` is the content of its `filePath`. -/
theorem read_files_readable (fs : Fs) (comps : List SourceComponent) :
    ∀ f ∈ readComponentXmlFilesInParallel fs comps,
      fs f.filePath = some f.fileContents := by
  intro f hf
  rcases List.mem_filterMap.mp hf with ⟨c, _, heq⟩
  by_cases hcond : (jsTruthy (componentNameOf c) && jsTruthy c.xml) = true
  · rw [if_pos hcond] at heq
    rcases Option.map_eq_some'.mp heq with ⟨t, hread, hmk⟩
    rw [← hmk]
    exact hread
  · rw [if_neg hcond] at heq; cases heq

/-- If the parsed document's opt-out flag is true-like, `updateMetaXml`
returns the input content unchanged. -/
theorem updateMetaXml_skipTrue (env : MergeEnv) (c : String) (r : EnrichmentResult)
    (doc : XmlDoc) (hp : env.parse c = .ok doc)
    (hs : isSkipUpliftTrue
      ((doc.bundle.bind BundleElement.ai).bind AiElement.skipUplift) = true) :
    updateMetaXml env c r = .ok c := by
  unfold updateMetaXml
  rw [hp]
  simp [hs]

theorem processFile_preserves_at (env : MergeEnv) (p content : String) (doc : XmlDoc)
    (hp : env.parse content = .ok doc)
    (hs : isSkipUpliftTrue
      ((doc.bundle.bind BundleElement.ai).bind AiElement.skipUplift) = true)
    (st : List EnrichmentRequestRecord × Fs) (f : FileReadResult)
    (hfp : f.filePath = p → f.fileContents = content)
    (hst : st.2 p = some content) :
    (processFile env st f).2 p = some content := by
  unfold processFile
  split
  · exact hst
  split
  · exact hst
  split
  · exact hst
  split
  · exact hst
  split
  · exact hst
  rename_i xres resultHead tailResults hres xup u hup
  split
  · show (st.1, fsWrite st.2 f.filePath u).2 p = some content
    by_cases hq : p = f.filePath
    · have hcnt : f.fileContents = content := hfp hq.symm
      rw [hcnt] at hup
      have hok := updateMetaXml_skipTrue env content resultHead doc hp hs
      rw [hup] at hok
      have hu : u = content := Except.ok.inj hok
      simp [fsWrite, hq, hu]
    · simpa [fsWrite, hq] using hst
  · exact hst

/-- C3: if a support file's current content parses to a document whose
`skipUplift` opt-out flag is boolean `true` or a case-insensitive string
`"true"`, the merge step leaves that file's content byte-identical — for
any components and records, in particular when a successful response is
present for the component. -/
theorem updateMetadataFiles_preserves_optout
    (env : MergeEnv) (comps : List SourceComponent)
    (records : List EnrichmentRequestRecord) (fs : Fs)
    (p content : String) (doc : XmlDoc)
    (hread : fs p = some content)
    (hp : env.parse content = .ok doc)
    (hs : isSkipUpliftTrue
      ((doc.bundle.bind BundleElement.ai).bind AiElement.skipUplift) = true) :
    (updateMetadataFiles env comps records fs).2 p = some content := by
  have hfiles := read_files_readable fs comps
  unfold updateMetadataFiles
  have main : ∀ (files : List FileReadResult)
      (st : List EnrichmentRequestRecord × Fs),
      (∀ f ∈ files, f.filePath = p → f.fileContents = content) →
      st.2 p = some content →
      (files.foldl (processFile env) st).2 p = some content := by
    intro files
    induction files with
    | nil => intro st _ hst; exact hst
    | cons f fsx ih =>
      intro st hall hst
      rw [List.foldl_cons]
      apply ih
      · intro g hg
        exact hall g (List.mem_cons_of_mem _ hg)
      · exact processFile_preserves_at env p content doc hp hs st f
          (hall f (List.mem_cons_self _ _)) hst
  apply main
  · intro f hf hfp
    have hc := hfiles f hf
    rw [hfp, hread] at hc
    exact (Option.some.inj hc).symm
  · exact hread

def optOutAi : AiElement :=
  { skipUplift := some (.str "TRUE"), description := none, score := none }

def optOutBundle : BundleElement :=
  { ai := some optOutAi, rest := [] }

def optOutDoc : XmlDoc :=
  { bundle := some optOutBundle, rest := [] }

def mergeEnvW : MergeEnv :=
  { parse := fun s => if s = "<x/>" then .ok optOutDoc else .error "bad",
    build := fun _ => "",
    writeOk := fun _ => true,
    writeErrMsg := fun _ => "write error" }

def compW : SourceComponent :=
  { fullName := some "Alpha", name := some "Alpha",
    type := some { name := "LightningComponentBundle" },
    xml := some "lwc/alpha/alpha.js-meta.xml" }

def fsW : Fs := fun q => if q = "lwc/alpha/alpha.js-meta.xml" then some "<x/>" else none

theorem setMessageOnFirst_length (records : List EnrichmentRequestRecord)
    (name msg : String) :
    (setMessageOnFirst records name msg).length = records.length := by
  induction records with
  | nil => rfl
  | cons r rs ih =>
    unfold setMessageOnFirst
    by_cases h : r.componentName = name
    · simp [h]
    · simp [h, ih]

theorem setMessageOnFirst_getElem_ne (name msg : String) :
    ∀ (records : List EnrichmentRequestRecord) (i : Nat) (r : EnrichmentRequestRecord),
      records[i]? = some r → r.componentName ≠ name →
      (setMessageOnFirst records name msg)[i]? = some r := by
  intro records
  induction records with
  | nil => intro i r h _; simp at h
  | cons x xs ih =>
    intro i r h hne
    cases i with
    | zero =>
      have hx : x = r := by simpa using h
      subst hx
      unfold setMessageOnFirst
      rw [if_neg hne]
      simp
    | succ j =>
      have hj : xs[j]? = some r := by simpa using h
      unfold setMessageOnFirst
      by_cases hx : x.componentName = name
      · rw [if_pos hx]
        simpa using hj
      · rw [if_neg hx]
        simpa using ih j r hj hne

/-- C8: when the merge of one read support file fails — `updateMetaXml`
throws (parse failure) or the write fails — no exception escapes
`updateMetadataFiles`: the loop iteration turns into capturing the error
message on the matched record, the remaining files are still processed
from that state, and every record with a different component name is left
exactly as it was. -/
theorem merge_error_captured_processing_continues
    (env : MergeEnv) (f : FileReadResult) (restFiles : List FileReadResult)
    (records : List EnrichmentRequestRecord) (fs : Fs)
    (record : EnrichmentRequestRecord) (resp : EnrichMetadataResult)
    (result : EnrichmentResult) (more : List EnrichmentResult) (e : String)
    (hmeta : isMetaXmlFile f.filePath = true)
    (hfind : records.find? (fun r => r.componentName == f.componentName) = some record)
    (hresp : record.response = some resp)
    (hres : resp.results = result :: more)
    (herr : updateMetaXml env f.fileContents result = .error e
      ∨ (env.writeOk f.filePath = false
         ∧ (∃ u, updateMetaXml env f.fileContents result = .ok u)
         ∧ e = env.writeErrMsg f.filePath)) :
    (f :: restFiles).foldl (processFile env) (records, fs)
        = restFiles.foldl (processFile env)
            (setMessageOnFirst records f.componentName e, fs)
    ∧ (setMessageOnFirst records f.componentName e).length = records.length
    ∧ (∀ (i : Nat) (r' : EnrichmentRequestRecord),
        records[i]? = some r' → r'.componentName ≠ f.componentName →
        (setMessageOnFirst records f.componentName e)[i]? = some r') := by
  constructor
  · rw [List.foldl_cons]
    have hstep : processFile env (records, fs) f
        = (setMessageOnFirst records f.componentName e, fs) := by
      rcases herr with herr | ⟨hw, ⟨u, hu⟩, he⟩
      · simp only [processFile, hmeta, Bool.not_true, hfind, hresp, hres, herr]
        simp
      · subst he
        simp only [processFile, hmeta, Bool.not_true, hfind, hresp, hres, hu, hw]
        simp
    rw [hstep]
  constructor
  · exact setMessageOnFirst_length records f.componentName e
  · intro i r' h hne
    exact setMessageOnFirst_getElem_ne f.componentName e records i r' h hne

def badFile : FileReadResult :=
  { componentName := "Alpha", filePath := "lwc/alpha/alpha.js-meta.xml",
    fileContents := "<bad>", mimeType := "application/xml" }

theorem merge_error_captured_processing_continues_witness :
    isMetaXmlFile badFile.filePath = true
    ∧ [recSuccess].find? (fun r => r.componentName == badFile.componentName) = some recSuccess
    ∧ recSuccess.response = some sampleResp
    ∧ sampleResp.results = sampleResult :: []
    ∧ updateMetaXml mergeEnvW badFile.fileContents sampleResult
        = .error "Failed to parse XML: bad"
    ∧ (badFile :: []).foldl (processFile mergeEnvW) ([recSuccess], fsW)
        = ([] : List FileReadResult).foldl (processFile mergeEnvW)
            (setMessageOnFirst [recSuccess] badFile.componentName
              "Failed to parse XML: bad", fsW) := by
  refine ⟨by decide, rfl, rfl, rfl, rfl, ?_⟩
  exact (merge_error_captured_processing_continues mergeEnvW badFile [] [recSuccess] fsW
    recSuccess sampleResp sampleResult [] "Failed to parse XML: bad"
    (by decide) rfl rfl rfl (Or.inl rfl)).1

/-- Each loop iteration either leaves the records untouched or only
captures a message on the first record matching the file's component. -/
theorem processFile_records_frame (env : MergeEnv)
    (st : List EnrichmentRequestRecord × Fs) (f : FileReadResult) :
    (processFile env st f).1 = st.1
    ∨ ∃ e, (processFile env st f).1 = setMessageOnFirst st.1 f.componentName e := by
  unfold processFile
  split
  · exact Or.inl rfl
  split
  · exact Or.inl rfl
  split
  · exact Or.inl rfl
  split
  · exact Or.inl rfl
  split
  · exact Or.inr ⟨_, rfl⟩
  split
  · exact Or.inl rfl
  · exact Or.inr ⟨_, rfl⟩

theorem foldl_records_frame (env : MergeEnv) (i : Nat) (r : EnrichmentRequestRecord) :
    ∀ (files : List FileReadResult) (st : List EnrichmentRequestRecord × Fs),
      st.1[i]? = some r →
      (∀ f ∈ files, f.componentName ≠ r.componentName) →
      ((files.foldl (processFile env) st).1)[i]? = some r := by
  intro files
  induction files with
  | nil => intro st h _; exact h
  | cons f fsx ih =>
    intro st h hall
    rw [List.foldl_cons]
    apply ih
    · rcases processFile_records_frame env st f with heq | ⟨e, heq⟩
      · rw [heq]; exact h
      · rw [heq]
        exact setMessageOnFirst_getElem_ne f.componentName e st.1 i r h
          (Ne.symm (hall f (List.mem_cons_self _ _)))
    · intro g hg
      exact hall g (List.mem_cons_of_mem _ hg)

/-- C9 (amended): an unreadable support file never enters the merge loop
(every processed file carries content actually read from the file system),
and a record none of whose component's files were readable is returned
unchanged — its `message` included — while other records are unaffected. -/
theorem unreadable_support_file_silently_skipped
    (env : MergeEnv) (comps : List SourceComponent)
    (records : List EnrichmentRequestRecord) (fs : Fs) :
    (∀ f ∈ readComponentXmlFilesInParallel fs comps,
      fs f.filePath = some f.fileContents)
    ∧ (∀ (i : Nat) (r : EnrichmentRequestRecord), records[i]? = some r →
        (∀ f ∈ readComponentXmlFilesInParallel fs comps,
          f.componentName ≠ r.componentName) →
        ((updateMetadataFiles env comps records fs).1)[i]? = some r) := by
  refine ⟨read_files_readable fs comps, ?_⟩
  intro i r h hall
  unfold updateMetadataFiles
  exact foldl_records_frame env i r _ (records, fs) h hall

def fsNone : Fs := fun _ => none

theorem unreadable_support_file_silently_skipped_witness :
    ([recSuccess])[0]? = some recSuccess
    ∧ (∀ f ∈ readComponentXmlFilesInParallel fsNone [compW],
        f.componentName ≠ recSuccess.componentName)
    ∧ ((updateMetadataFiles mergeEnvW [compW] [recSuccess] fsNone).1)[0]?
        = some recSuccess := by
  refine ⟨rfl, by decide, ?_⟩
  exact (unreadable_support_file_silently_skipped mergeEnvW [compW] [recSuccess]
    fsNone).2 0 recSuccess rfl (by decide)

/-- C9 (counterexample): `compW`'s support file is unreadable, its record
has a successful response, and yet after the merge step the record is
returned with `message` still unset — no error was captured into it; the
component was silently dropped from merge processing instead. -/
theorem unreadable_support_file_leaves_message_unset :
    compW.xml = some "lwc/alpha/alpha.js-meta.xml"
    ∧ fsNone "lwc/alpha/alpha.js-meta.xml" = none
    ∧ recSuccess.response.isSome = true
    ∧ (updateMetadataFiles mergeEnvW [compW] [recSuccess] fsNone).1 = [recSuccess]
    ∧ recSuccess.message = none := by
  exact ⟨rfl, rfl, rfl, by decide, rfl⟩

theorem updateMetadataFiles_preserves_optout_witness :
    fsW "lwc/alpha/alpha.js-meta.xml" = some "<x/>"
    ∧ mergeEnvW.parse "<x/>" = .ok optOutDoc
    ∧ isSkipUpliftTrue
        ((optOutDoc.bundle.bind BundleElement.ai).bind AiElement.skipUplift) = true
    ∧ recSuccess.response.isSome = true
    ∧ (updateMetadataFiles mergeEnvW [compW] [recSuccess] fsW).2
        "lwc/alpha/alpha.js-meta.xml" = some "<x/>" := by
  refine ⟨rfl, rfl, by decide, rfl, ?_⟩
  exact updateMetadataFiles_preserves_optout mergeEnvW [compW] [recSuccess] fsW
    "lwc/alpha/alpha.js-meta.xml" "<x/>" optOutDoc rfl rfl (by decide)

end MetadataEnrichment
